import Mathlib

/-!
Verification of an IPv4 subnet calculator (a small Flask app, `app.py`).

The development shallowly embeds the pure core of the program:
addresses are natural numbers below 2 to the 32, a network is a base
address together with a prefix length, and the helper functions
`parse_input`, `get_parent_network`, `get_host_range` and
`format_ipcalc` are translated from the Python source.  Python string
handling is modelled on lists of characters, Python `int` values as
`Nat` or `Int`, and fallible operations return `Option`.
-/

namespace IpCalc

/-- Constant `ITEMS_PER_PAGE` from the source. -/
def ITEMS_PER_PAGE : Nat := 20

/-- Constant `PAGES_BEFORE_AFTER` from the source. -/
def PAGES_BEFORE_AFTER : Nat := 10

/-- An IPv4 network value: a base address and a prefix length.  Models a
Python `ipaddress.IPv4Network` object, whose `network_address` is an
integer below 2 to the 32 and whose `prefixlen` lies in `[0, 32]`. -/
structure Network where
  addr : Nat
  prefixLen : Nat
deriving DecidableEq, Repr

/-- Clearing the host bits of `a` for prefix length `p`: the Python
`int(address) & int(netmask)` computation used by `IPv4Network` with
`strict=False` (for `a` below 2 to the 32 the bitwise AND with the mask of
`p` leading ones is exactly rounding down to a multiple of `2 ^ (32 - p)`). -/
def netBase (a p : Nat) : Nat := a / 2 ^ (32 - p) * 2 ^ (32 - p)

/-- `net.num_addresses` of the source. -/
def numAddresses (net : Network) : Nat := 2 ^ (32 - net.prefixLen)

/-- `net.broadcast_address` of the source, as an integer. -/
def broadcastAddr (net : Network) : Nat := net.addr + numAddresses net - 1

/-- Well-formedness invariant every `IPv4Network` produced by the Python
library satisfies: prefix in range, address in range, host bits cleared. -/
def WellFormed (net : Network) : Prop :=
  net.prefixLen ≤ 32 ∧ net.addr < 2 ^ 32 ∧ net.addr % 2 ^ (32 - net.prefixLen) = 0

instance (net : Network) : Decidable (WellFormed net) := by
  unfold WellFormed
  infer_instance

/-- `get_host_range` of the source: usable host range of a network. -/
def get_host_range (net : Network) : Nat × Nat :=
  if 2 < numAddresses net then (net.addr + 1, broadcastAddr net - 1)
  else (net.addr, net.addr)

/-- One `net.supernet()` step of the Python library: widen the prefix by
one and clear the newly freed host bits.  (The `ValueError` the library
raises at prefix 0 cannot occur inside `_get_supernet_to_prefix`, whose
loop guard already fails at prefix 0.) -/
def supernetStep (net : Network) : Network :=
  ⟨netBase net.addr (net.prefixLen - 1), net.prefixLen - 1⟩

/-- The `while current.prefixlen > target_prefix` loop of
`_get_supernet_to_prefix`, with explicit fuel; each iteration lowers the
prefix length by one, so `net.prefixLen` much fuel is always enough. -/
def supernetLoop : Nat → Network → Nat → Network
  | 0, cur, _ => cur
  | f + 1, cur, target =>
      if target < cur.prefixLen then supernetLoop f (supernetStep cur) target else cur

/-- `_get_supernet_to_prefix(net, target)` of the source. -/
def getSupernetToBoundary (net : Network) (target : Nat) : Network :=
  supernetLoop net.prefixLen net target

/-- `get_parent_network` of the source: widen to the class boundary /24,
/16 or /8 depending on the prefix length; for prefix length at most 8
build the /8 network from the first byte of the base address
(`packed[0]`, i.e. `addr / 2 ^ 24` reduced modulo 256). -/
def get_parent_network (net : Network) : Network :=
  if 24 < net.prefixLen then getSupernetToBoundary net 24
  else if 16 < net.prefixLen then getSupernetToBoundary net 16
  else if 8 < net.prefixLen then getSupernetToBoundary net 8
  else ⟨net.addr / 2 ^ 24 % 256 * 2 ^ 24, 8⟩

/-! ### Python string primitives, modelled on lists of characters -/

/-- Python `str.strip()`: drop whitespace from both ends. -/
def pyStrip (cs : List Char) : List Char :=
  ((cs.dropWhile Char.isWhitespace).reverse.dropWhile Char.isWhitespace).reverse

/-- Python `str.split()` with no argument: split on runs of whitespace,
discarding empty pieces.  `acc` holds the current token reversed. -/
def splitWsAux : List Char → List Char → List (List Char)
  | [], acc => if acc = [] then [] else [acc.reverse]
  | c :: rest, acc =>
      if c.isWhitespace then
        if acc = [] then splitWsAux rest [] else acc.reverse :: splitWsAux rest []
      else splitWsAux rest (c :: acc)

/-- Python `str.split()` with no argument. -/
def splitWs (cs : List Char) : List (List Char) := splitWsAux cs []

/-- Python `str.split(sep)` for a single-character separator: keeps empty
pieces, always returns at least one piece. -/
def splitOnCharAux (sep : Char) : List Char → List Char → List (List Char)
  | [], acc => [acc.reverse]
  | c :: rest, acc =>
      if c = sep then acc.reverse :: splitOnCharAux sep rest []
      else splitOnCharAux sep rest (c :: acc)

/-- Python `str.split(sep)` for a single-character separator. -/
def splitOnChar (sep : Char) (cs : List Char) : List (List Char) :=
  splitOnCharAux sep cs []

/-- Decimal value of a digit string (the caller checks the digits). -/
def charsToNat (cs : List Char) : Nat :=
  cs.foldl (fun a c => a * 10 + (c.toNat - 48)) 0

/-! ### Rendering numbers back to text -/

/-- The decimal digit character for `n % 10`. -/
def digitChar (n : Nat) : Char := Char.ofNat (48 + n % 10)

/-- Decimal digits of `n`, most significant first, with explicit fuel. -/
def natToCharsAux : Nat → Nat → List Char → List Char
  | 0, _, acc => acc
  | f + 1, n, acc =>
      if n < 10 then digitChar n :: acc
      else natToCharsAux f (n / 10) (digitChar n :: acc)

/-- Python `str(n)` for a natural number. -/
def natToChars (n : Nat) : List Char := natToCharsAux (n + 1) n []

/-- Join character-list pieces with a dot. -/
def dotJoinChars : List (List Char) → List Char
  | [] => []
  | [x] => x
  | x :: xs => x ++ '.' :: dotJoinChars xs

/-- The four bytes of a 32-bit address, most significant first
(`packed` of the Python library). -/
def octetsOf (n : Nat) : List Nat :=
  [n / 16777216 % 256, n / 65536 % 256, n / 256 % 256, n % 256]

/-- Python `str(IPv4Address(n))`: dotted-decimal text, as characters. -/
def ipChars (n : Nat) : List Char :=
  dotJoinChars ((octetsOf n).map natToChars)

/-- Python `str(IPv4Address(n))` as a `String`. -/
def ipToString (n : Nat) : String := String.mk (ipChars n)

/-- Insert thousands separators into a reversed digit list (explicit fuel
so that the kernel can evaluate it). -/
def commaRevAux : Nat → List Char → List Char
  | 0, ds => ds
  | f + 1, ds =>
      match ds with
      | a :: b :: c :: d :: rest => a :: b :: c :: ',' :: commaRevAux f (d :: rest)
      | other => other

/-- Python format specifier `,` on a nonnegative integer: decimal digits
grouped in threes by commas. -/
def commaFmt (n : Nat) : String :=
  let ds := (natToChars n).reverse
  String.mk (commaRevAux ds.length ds).reverse

/-! ### The `ipaddress` module: parsing addresses, masks and networks -/

/-- `IPv4Address._parse_octet`: ASCII digits only, at most three of them,
no leading zero (unless the octet is exactly `0`), value at most 255. -/
def parseOctetChars (cs : List Char) : Option Nat :=
  if !cs.all Char.isDigit then none
  else if cs = [] then none
  else if 3 < cs.length then none
  else if cs.head? = some '0' ∧ cs.length ≠ 1 then none
  else
    let v := charsToNat cs
    if 255 < v then none else some v

/-- `IPv4Address._ip_int_from_string`: exactly four dot-separated octets. -/
def parseIPv4Chars (cs : List Char) : Option Nat :=
  match splitOnChar '.' cs with
  | [a, b, c, d] =>
      match parseOctetChars a, parseOctetChars b, parseOctetChars c, parseOctetChars d with
      | some x, some y, some z, some w => some (((x * 256 + y) * 256 + z) * 256 + w)
      | _, _, _, _ => none
  | _ => none

/-- The netmask with `p` leading one bits, as a 32-bit integer. -/
def maskOf (p : Nat) : Nat := 2 ^ 32 - 2 ^ (32 - p)

/-- `_prefix_from_ip_int`: recover the prefix length from a mask integer,
failing unless the mask is a contiguous run of ones followed by zeros. -/
def maskToPrefixLen (m : Nat) : Option Nat :=
  (List.range 33).find? (fun p => m = maskOf p)

/-- `IPv4Network._make_netmask` on the text right of the slash: first try
a plain prefix-length integer (ASCII digits, at most 32); otherwise parse
as a dotted address and accept it as a netmask, or failing that as a
hostmask (a value whose complement is a netmask). -/
def parseMaskChars (cs : List Char) : Option Nat :=
  if cs ≠ [] ∧ cs.all Char.isDigit ∧ charsToNat cs ≤ 32 then
    some (charsToNat cs)
  else
    match parseIPv4Chars cs with
    | some m =>
        match maskToPrefixLen m with
        | some p => some p
        | none => maskToPrefixLen (m ^^^ 4294967295)
    | none => none

/-- `IPv4Network(text, strict=False)` once address and prefix are known:
the base address is the given address with its host bits cleared. -/
def mkNonstrict (ip p : Nat) : Network := ⟨netBase ip p, p⟩

/-- `ipaddress.IPv4Network(text, strict=False)` on a text that may hold a
slash: at most one slash is permitted; without one the prefix defaults
to 32. -/
def netFromCidrChars (cs : List Char) : Option Network :=
  match splitOnChar '/' cs with
  | [a] => (parseIPv4Chars a).map (fun ip => mkNonstrict ip 32)
  | [a, m] =>
      (parseIPv4Chars a).bind (fun ip => (parseMaskChars m).map (fun p => mkNonstrict ip p))
  | _ => none

/-- `parse_input` of the source, on characters: empty input is rejected;
input holding a slash goes straight to `IPv4Network`; a two-token input
tries `ip/mask` first and falls back to reading the second token as a
wildcard mask, complementing it and retrying; anything else is parsed
with a default /32. -/
def parseInputChars (cs : List Char) : Option Network :=
  if cs = [] then none
  else
    let t := pyStrip cs
    if t.any (fun c => c = '/') then netFromCidrChars t
    else
      match splitWs t with
      | [ipPart, maskPart] =>
          let ip := pyStrip ipPart
          let mask := pyStrip maskPart
          match netFromCidrChars (ip ++ '/' :: mask) with
          | some n => some n
          | none =>
              match parseIPv4Chars mask with
              | some w => netFromCidrChars (ip ++ '/' :: ipChars (4294967295 - w))
              | none => none
      | _ => netFromCidrChars (t ++ ['/', '3', '2'])

/-- `parse_input` of the source. -/
def parse_input (s : String) : Option Network := parseInputChars s.data

/-! ### Python `int(str)` -/

/-- Checks a Python integer-literal digit run: nonempty, decimal digits,
single underscores allowed strictly between digits. -/
def pyIntDigitsOk : List Char → Bool
  | [] => false
  | [c] => c.isDigit
  | c :: '_' :: rest => c.isDigit && pyIntDigitsOk rest
  | c :: rest => c.isDigit && pyIntDigitsOk rest

/-- Python `int(text)` on stripped characters: optional sign followed by
digits (with underscore separators). -/
def pyIntChars : List Char → Option Int
  | '+' :: rest =>
      if pyIntDigitsOk rest then some (charsToNat (rest.filter (fun c => c ≠ '_'))) else none
  | '-' :: rest =>
      if pyIntDigitsOk rest then some (-(charsToNat (rest.filter (fun c => c ≠ '_')) : Int)) else none
  | cs =>
      if pyIntDigitsOk cs then some (charsToNat (cs.filter (fun c => c ≠ '_'))) else none

/-- Python `int(text)`: strip whitespace, then read a signed decimal
literal; any other shape raises `ValueError`, modelled as `none`. -/
def pyInt (s : String) : Option Int := pyIntChars (pyStrip s.data)

/-! ### `format_ipcalc`

The locals of the Python function are factored into named definitions;
each is a direct transcription of the corresponding assignment.  The
subnet-list entries keep the source's fields; the source renders the
three address fields of an entry as dotted-decimal strings, an injective
rendering, so the integer values are kept here. -/

/-- One entry of the subnet window (`all_nets` item of the source). -/
structure SubnetEntry where
  network : Nat
  rangeLo : Nat
  rangeHi : Nat
  broadcast : Nat
  is_current : Bool
  index : Nat
  page : Nat
deriving DecidableEq, Repr

/-- A default entry, used only as the `List.getD` fallback in statements. -/
def entryDefault : SubnetEntry := ⟨0, 0, 0, 0, false, 0, 0⟩

/-- The fields of the record `format_ipcalc` returns that the claims
refer to (string fields are kept as the source renders them). -/
structure IpcalcResult where
  network : String
  host_min : String
  host_max : String
  broadcast : String
  hosts_usable : String
  ip_class : String
  ip_type : String
  in_addr : String
  all_nets : List SubnetEntry
  show_subnet_list : Bool
  total_pages : Nat
  current_page : Nat
  total_subnets : Nat
  window_start_page : Nat
  window_end_page : Nat
  current_index : Nat
deriving DecidableEq, Repr

/-- `hosts_usable = max(0, hosts_total - 2)` of the source, over Python
(signed, unbounded) integers. -/
def hostsUsable (net : Network) : Int := max 0 ((numAddresses net : Int) - 2)

/-- The class letter computed from the first byte of the base address. -/
def ipClassOf (firstOctet : Nat) : String :=
  if firstOctet ≤ 127 then "A"
  else if firstOctet ≤ 191 then "B"
  else if firstOctet ≤ 223 then "C"
  else if firstOctet ≤ 239 then "D"
  else "E"

/-- The `_private_networks` table of the `ipaddress` module. -/
def privateNetworks : List Network :=
  [⟨0, 8⟩, ⟨167772160, 8⟩, ⟨2130706432, 8⟩, ⟨2851995648, 16⟩,
   ⟨2886729728, 12⟩, ⟨3221225472, 29⟩, ⟨3221225642, 31⟩, ⟨3221225984, 24⟩,
   ⟨3232235520, 16⟩, ⟨3323068416, 15⟩, ⟨3325256704, 24⟩, ⟨3405803776, 24⟩,
   ⟨4026531840, 4⟩, ⟨4294967295, 32⟩]

/-- `IPv4Address.is_private`: membership in some private block. -/
def addressIsPrivate (a : Nat) : Bool :=
  privateNetworks.any (fun p => decide (p.addr ≤ a ∧ a ≤ broadcastAddr p))

/-- `IPv4Network.is_private`: both the base and the broadcast address are
private. -/
def isPrivate (net : Network) : Bool :=
  addressIsPrivate net.addr && addressIsPrivate (broadcastAddr net)

/-- `in_addr`: the four address bytes reversed, dot-joined, with the
reverse-DNS suffix. -/
def inAddrOf (net : Network) : String :=
  String.mk (dotJoinChars ((octetsOf net.addr).reverse.map natToChars) ++ (".in-addr.arpa").data)

/-- `total_subnets` of the source (`2 ** prefix_diff if prefix_diff > 0
else 0`). -/
def totalSubnetsOf (net parent : Network) : Nat :=
  if 0 < net.prefixLen - parent.prefixLen then 2 ^ (net.prefixLen - parent.prefixLen) else 0

/-- `total_pages` of the source. -/
def totalPagesOf (net parent : Network) : Nat :=
  max 1 ((totalSubnetsOf net parent + ITEMS_PER_PAGE - 1) / ITEMS_PER_PAGE)

/-- `subnet_size` of the source. -/
def subnetSizeOf (net : Network) : Nat := 2 ^ (32 - net.prefixLen)

/-- `current_index` of the source. -/
def currentIndexOf (net parent : Network) : Nat :=
  (net.addr - parent.addr) / subnetSizeOf net

/-- `center_page` of the source: a truthy `requested_page` that parses as
an integer is clamped into `[1, total_pages]`; otherwise the page holding
`current_index` is used.  (Python `if requested_page:` is false exactly
for the empty string or an absent value.) -/
def centerPageOf (net parent : Network) (requested_page : Option String) : Nat :=
  match requested_page with
  | some s =>
      if s.data = [] then currentIndexOf net parent / ITEMS_PER_PAGE + 1
      else
        match pyInt s with
        | some k => (max 1 (min k (totalPagesOf net parent : Int))).toNat
        | none => currentIndexOf net parent / ITEMS_PER_PAGE + 1
  | none => currentIndexOf net parent / ITEMS_PER_PAGE + 1

/-- `start_page` of the source. -/
def startPageOf (net parent : Network) (rp : Option String) : Nat :=
  max 1 (centerPageOf net parent rp - PAGES_BEFORE_AFTER)

/-- `end_page` of the source. -/
def endPageOf (net parent : Network) (rp : Option String) : Nat :=
  min (totalPagesOf net parent) (centerPageOf net parent rp + PAGES_BEFORE_AFTER)

/-- `start_index` of the source. -/
def startIndexOf (net parent : Network) (rp : Option String) : Nat :=
  (startPageOf net parent rp - 1) * ITEMS_PER_PAGE

/-- `end_index` of the source. -/
def endIndexOf (net parent : Network) (rp : Option String) : Nat :=
  min (totalSubnetsOf net parent) (endPageOf net parent rp * ITEMS_PER_PAGE)

/-- The window entry generated for sibling index `idx`: the body of the
`for idx in range(start_index, end_index)` loop of the source. -/
def entryAt (net parent : Network) (idx : Nat) : SubnetEntry :=
  let networkInt := parent.addr + idx * subnetSizeOf net
  let subnet : Network := ⟨netBase networkInt net.prefixLen, net.prefixLen⟩
  { network := subnet.addr
    rangeLo := (get_host_range subnet).1
    rangeHi := (get_host_range subnet).2
    broadcast := broadcastAddr subnet
    is_current := decide (subnet = net)
    index := idx
    page := idx / ITEMS_PER_PAGE + 1 }

/-- The generated window: entries for indices
`start_index, ..., end_index - 1`. -/
def windowEntries (net parent : Network) (rp : Option String) : List SubnetEntry :=
  (List.range' (startIndexOf net parent rp) (endIndexOf net parent rp - startIndexOf net parent rp)).map
    (entryAt net parent)

/-- The record built when `show_subnet_list` holds
(`parent.prefixlen < net.prefixlen`). -/
def showRecord (net : Network) (rp : Option String) : IpcalcResult :=
  let parent := get_parent_network net
  { network := ipToString net.addr
    host_min := ipToString (get_host_range net).1
    host_max := ipToString (get_host_range net).2
    broadcast := ipToString (broadcastAddr net)
    hosts_usable := commaFmt (hostsUsable net).toNat
    ip_class := ipClassOf (net.addr / 2 ^ 24 % 256)
    ip_type := if isPrivate net then "Private" else "Public"
    in_addr := inAddrOf net
    all_nets := windowEntries net parent rp
    show_subnet_list := true
    total_pages := totalPagesOf net parent
    current_page := centerPageOf net parent rp
    total_subnets := totalSubnetsOf net parent
    window_start_page := startPageOf net parent rp
    window_end_page := endPageOf net parent rp
    current_index := currentIndexOf net parent }

/-- The record built when there is no sibling enumeration: a single entry
holding the subject network itself. -/
def singleRecord (net : Network) : IpcalcResult :=
  { network := ipToString net.addr
    host_min := ipToString (get_host_range net).1
    host_max := ipToString (get_host_range net).2
    broadcast := ipToString (broadcastAddr net)
    hosts_usable := commaFmt (hostsUsable net).toNat
    ip_class := ipClassOf (net.addr / 2 ^ 24 % 256)
    ip_type := if isPrivate net then "Private" else "Public"
    in_addr := inAddrOf net
    all_nets := [{ network := net.addr
                   rangeLo := (get_host_range net).1
                   rangeHi := (get_host_range net).2
                   broadcast := broadcastAddr net
                   is_current := true
                   index := 0
                   page := 1 }]
    show_subnet_list := false
    total_pages := 1
    current_page := 1
    total_subnets := 1
    window_start_page := 1
    window_end_page := 1
    current_index := 0 }

/-- `format_ipcalc` of the source (on a parsed network; the `None` input
guard of the source is handled by its caller through `parse_input`). -/
def format_ipcalc (net : Network) (requested_page : Option String) : IpcalcResult :=
  if (get_parent_network net).prefixLen < net.prefixLen then showRecord net requested_page
  else singleRecord net

/-! ### Arithmetic facts about `netBase` and the supernet loop -/

theorem netBase_le (a p : Nat) : netBase a p ≤ a := Nat.div_mul_le_self a _

theorem netBase_eq_sub_mod (a p : Nat) : netBase a p = a - a % 2 ^ (32 - p) := by
  have h := Nat.div_add_mod a (2 ^ (32 - p))
  unfold netBase
  rw [Nat.mul_comm]
  omega

theorem dvd_netBase (a p : Nat) : 2 ^ (32 - p) ∣ netBase a p :=
  ⟨a / 2 ^ (32 - p), Nat.mul_comm _ _⟩

theorem netBase_of_dvd {a p : Nat} (h : 2 ^ (32 - p) ∣ a) : netBase a p = a :=
  Nat.div_mul_cancel h

theorem netBase_netBase {a q t : Nat} (h : t ≤ q) :
    netBase (netBase a q) t = netBase a t := by
  obtain ⟨k, hk⟩ : ∃ k, 32 - t = (32 - q) + k := ⟨(32 - t) - (32 - q), by omega⟩
  have hm : 0 < 2 ^ (32 - q) := Nat.pos_pow_of_pos _ (by norm_num)
  unfold netBase
  rw [hk, Nat.pow_add]
  congr 1
  calc a / 2 ^ (32 - q) * 2 ^ (32 - q) / (2 ^ (32 - q) * 2 ^ k)
      = a / 2 ^ (32 - q) * 2 ^ (32 - q) / 2 ^ (32 - q) / 2 ^ k := by
        rw [Nat.div_div_eq_div_mul]
    _ = a / 2 ^ (32 - q) / 2 ^ k := by rw [Nat.mul_div_cancel _ hm]
    _ = a / (2 ^ (32 - q) * 2 ^ k) := by rw [Nat.div_div_eq_div_mul]

theorem supernetLoop_spec : ∀ (f : Nat) (cur : Network) (t : Nat),
    cur.prefixLen - t ≤ f →
    supernetLoop f cur t = if t < cur.prefixLen then ⟨netBase cur.addr t, t⟩ else cur := by
  intro f
  induction f with
  | zero =>
      intro cur t h
      have hnlt : ¬ t < cur.prefixLen := by omega
      simp [supernetLoop, hnlt]
  | succ f ih =>
      intro cur t h
      by_cases hlt : t < cur.prefixLen
      · rw [supernetLoop, if_pos hlt, ih (supernetStep cur) t (by simp [supernetStep]; omega)]
        by_cases h2 : t < (supernetStep cur).prefixLen
        · rw [if_pos h2, if_pos hlt]
          simp only [supernetStep] at h2 ⊢
          rw [netBase_netBase (by omega)]
        · rw [if_neg h2, if_pos hlt]
          simp only [supernetStep] at h2 ⊢
          have : cur.prefixLen - 1 = t := by omega
          rw [this]
      · rw [supernetLoop, if_neg hlt, if_neg hlt]

theorem getSupernetToBoundary_spec (net : Network) (t : Nat) (h : t < net.prefixLen) :
    getSupernetToBoundary net t = ⟨netBase net.addr t, t⟩ := by
  unfold getSupernetToBoundary
  rw [supernetLoop_spec net.prefixLen net t (by omega), if_pos h]

/-- The class-boundary target `get_parent_network` widens to when the
prefix length is above 8. -/
def parentBound (net : Network) : Nat :=
  if 24 < net.prefixLen then 24 else if 16 < net.prefixLen then 16 else 8

theorem get_parent_network_eq (net : Network) (h8 : 8 < net.prefixLen) :
    get_parent_network net = ⟨netBase net.addr (parentBound net), parentBound net⟩ ∧
    parentBound net < net.prefixLen ∧ 8 ≤ parentBound net := by
  unfold get_parent_network parentBound
  by_cases h24 : 24 < net.prefixLen
  · simp only [if_pos h24]
    exact ⟨getSupernetToBoundary_spec _ _ h24, by omega, by omega⟩
  · by_cases h16 : 16 < net.prefixLen
    · simp only [if_neg h24, if_pos h16]
      exact ⟨getSupernetToBoundary_spec _ _ h16, by omega, by omega⟩
    · simp only [if_neg h24, if_neg h16, if_pos h8]
      exact ⟨getSupernetToBoundary_spec _ _ h8, by omega, by omega⟩

theorem get_parent_network_low (net : Network) (h8 : ¬ 8 < net.prefixLen) :
    get_parent_network net = ⟨net.addr / 2 ^ 24 % 256 * 2 ^ 24, 8⟩ := by
  unfold get_parent_network
  rw [if_neg (by omega), if_neg (by omega), if_neg h8]

/-- A multiple of `s` strictly below a multiple of `s` leaves room for a
whole extra `s`. -/
theorem add_le_of_dvd_lt {s m M : Nat} (h1 : s ∣ m) (h2 : s ∣ M) (h3 : m < M) :
    m + s ≤ M := by
  obtain ⟨a, rfl⟩ := h1
  obtain ⟨b, rfl⟩ := h2
  have hs : 0 < s := by
    rcases Nat.eq_zero_or_pos s with h | h
    · subst h; omega
    · exact h
  have hab : a < b := by
    by_contra hc
    push_neg at hc
    exact absurd h3 (by simpa using Nat.mul_le_mul_left s hc)
  calc s * a + s = s * (a + 1) := by ring
    _ ≤ s * b := Nat.mul_le_mul_left s (by omega)

/-- An address block of size `2 ^ (32 - p)` starting at an aligned `a`
stays inside the enclosing aligned block of size `2 ^ (32 - b)`. -/
theorem aligned_within {a : Nat} (p b : Nat) (hb : b ≤ p)
    (hal : a % 2 ^ (32 - p) = 0) :
    a + 2 ^ (32 - p) - 1 ≤ netBase a b + 2 ^ (32 - b) - 1 := by
  have hsM : (2 ^ (32 - p) : Nat) ∣ 2 ^ (32 - b) := pow_dvd_pow 2 (by omega)
  have hMpos : 0 < (2 ^ (32 - b) : Nat) := Nat.pos_pow_of_pos _ (by norm_num)
  have hm : (2 ^ (32 - p) : Nat) ∣ a % 2 ^ (32 - b) := by
    apply Nat.dvd_of_mod_eq_zero
    rw [Nat.mod_mod_of_dvd a hsM, hal]
  have hlt : a % 2 ^ (32 - b) < 2 ^ (32 - b) := Nat.mod_lt _ hMpos
  have hb2 := add_le_of_dvd_lt hm hsM hlt
  have hnb := netBase_eq_sub_mod a b
  have hmle : a % 2 ^ (32 - b) ≤ a := Nat.mod_le _ _
  omega

theorem parent_of_exact8 (net : Network) (hw : WellFormed net)
    (h : net.prefixLen = 8) : get_parent_network net = net := by
  obtain ⟨hp, ha, hal⟩ := hw
  rw [get_parent_network_low net (by omega)]
  rw [h] at hal
  norm_num at hal
  have hdiv : net.addr / 2 ^ 24 < 256 := by
    apply Nat.div_lt_of_lt_mul
    calc net.addr < 2 ^ 32 := ha
      _ = 2 ^ 24 * 256 := by norm_num
  obtain ⟨a, p⟩ := net
  simp only at h hal hdiv ⊢
  rw [h, Nat.mod_eq_of_lt hdiv]
  have h24 : (2 : Nat) ^ 24 = 16777216 := by norm_num
  rw [h24, Nat.div_mul_cancel (Nat.dvd_of_mod_eq_zero hal)]

/-- Common outcome of the three widening branches of
`get_parent_network`: boundary prefix, alignment, containment. -/
theorem parent_case (net : Network) (hw : WellFormed net) (b : Nat)
    (hblt : b < net.prefixLen) (hb8 : 8 ≤ b) (hpb : parentBound net = b) :
    (get_parent_network net).prefixLen = b ∧
    (get_parent_network net).addr % 2 ^ (32 - b) = 0 ∧
    (get_parent_network net).addr ≤ net.addr ∧
    broadcastAddr net ≤ broadcastAddr (get_parent_network net) := by
  obtain ⟨heq, _, _⟩ := get_parent_network_eq net (by omega)
  rw [hpb] at heq
  rw [heq]
  refine ⟨rfl, Nat.mul_mod_left _ _, netBase_le _ _, ?_⟩
  simp only [broadcastAddr, numAddresses]
  exact aligned_within net.prefixLen b (le_of_lt hblt) hw.2.2

/-- Claim C1: for a well-formed network, `get_parent_network` returns a
/24-aligned supernet when the prefix is above 24, a /16-aligned supernet
when above 16, an /8-aligned supernet when above 8, and for prefix at
most 8 the /8 network built from the first byte of the base address,
even when the subject is wider than /8. -/
theorem parent_network_class_boundaries (net : Network) (hw : WellFormed net) :
    (24 < net.prefixLen →
      (get_parent_network net).prefixLen = 24 ∧
      (get_parent_network net).addr % 2 ^ 8 = 0 ∧
      (get_parent_network net).addr ≤ net.addr ∧
      broadcastAddr net ≤ broadcastAddr (get_parent_network net)) ∧
    (16 < net.prefixLen → net.prefixLen ≤ 24 →
      (get_parent_network net).prefixLen = 16 ∧
      (get_parent_network net).addr % 2 ^ 16 = 0 ∧
      (get_parent_network net).addr ≤ net.addr ∧
      broadcastAddr net ≤ broadcastAddr (get_parent_network net)) ∧
    (8 < net.prefixLen → net.prefixLen ≤ 16 →
      (get_parent_network net).prefixLen = 8 ∧
      (get_parent_network net).addr % 2 ^ 24 = 0 ∧
      (get_parent_network net).addr ≤ net.addr ∧
      broadcastAddr net ≤ broadcastAddr (get_parent_network net)) ∧
    (net.prefixLen ≤ 8 →
      get_parent_network net = ⟨net.addr / 2 ^ 24 * 2 ^ 24, 8⟩) := by
  refine ⟨fun h24 => ?_, fun h16 h24 => ?_, fun h8 h16 => ?_, fun h8 => ?_⟩
  · exact parent_case net hw 24 h24 (by norm_num)
      (by unfold parentBound; rw [if_pos h24])
  · exact parent_case net hw 16 h16 (by norm_num)
      (by unfold parentBound; rw [if_neg (by omega), if_pos h16])
  · exact parent_case net hw 8 h8 (by norm_num)
      (by unfold parentBound; rw [if_neg (by omega), if_neg (by omega)])
  · rw [get_parent_network_low net (by omega)]
    have hdiv : net.addr / 2 ^ 24 < 256 := by
      apply Nat.div_lt_of_lt_mul
      calc net.addr < 2 ^ 32 := hw.2.1
        _ = 2 ^ 24 * 256 := by norm_num
    rw [Nat.mod_eq_of_lt hdiv]

/-- Witness for claim C1's theorem at the network 10.10.10.0/30. -/
theorem parent_network_class_boundaries_witness :
    WellFormed ⟨168430080, 30⟩ ∧
    (24 < (⟨168430080, 30⟩ : Network).prefixLen →
      (get_parent_network ⟨168430080, 30⟩).prefixLen = 24 ∧
      (get_parent_network ⟨168430080, 30⟩).addr % 2 ^ 8 = 0 ∧
      (get_parent_network ⟨168430080, 30⟩).addr ≤ (⟨168430080, 30⟩ : Network).addr ∧
      broadcastAddr ⟨168430080, 30⟩ ≤ broadcastAddr (get_parent_network ⟨168430080, 30⟩)) :=
  ⟨by decide, (parent_network_class_boundaries ⟨168430080, 30⟩ (by decide)).1⟩

/-- Claim C2 as stated is false: the parent of 10.10.10.0/24 is
10.10.0.0/16, not the /24 itself. -/
theorem parent_not_idempotent_at_24 :
    get_parent_network ⟨168430080, 24⟩ = ⟨168427520, 16⟩ ∧
    get_parent_network ⟨168430080, 24⟩ ≠ ⟨168430080, 24⟩ := by
  decide

/-- Claim C2, amended: only a network sitting exactly at /8 is returned
unchanged by `get_parent_network`; a /16 widens to its /8 and a /24
widens to its /16. -/
theorem parent_at_exact_boundaries (net : Network) (hw : WellFormed net) :
    (net.prefixLen = 8 → get_parent_network net = net) ∧
    (net.prefixLen = 16 → get_parent_network net = ⟨netBase net.addr 8, 8⟩) ∧
    (net.prefixLen = 24 → get_parent_network net = ⟨netBase net.addr 16, 16⟩) := by
  refine ⟨fun h => parent_of_exact8 net hw h, fun h => ?_, fun h => ?_⟩
  · obtain ⟨heq, _, _⟩ := get_parent_network_eq net (by omega)
    have hpb : parentBound net = 8 := by unfold parentBound; rw [h]; decide
    rw [hpb] at heq
    exact heq
  · obtain ⟨heq, _, _⟩ := get_parent_network_eq net (by omega)
    have hpb : parentBound net = 16 := by unfold parentBound; rw [h]; decide
    rw [hpb] at heq
    exact heq

/-- Witness for claim C2's amended theorem at the network 10.0.0.0/8. -/
theorem parent_at_exact_boundaries_witness :
    WellFormed ⟨167772160, 8⟩ ∧
    ((⟨167772160, 8⟩ : Network).prefixLen = 8 →
      get_parent_network ⟨167772160, 8⟩ = ⟨167772160, 8⟩) ∧
    ((⟨167772160, 8⟩ : Network).prefixLen = 16 →
      get_parent_network ⟨167772160, 8⟩ = ⟨netBase 167772160 8, 8⟩) ∧
    ((⟨167772160, 8⟩ : Network).prefixLen = 24 →
      get_parent_network ⟨167772160, 8⟩ = ⟨netBase 167772160 16, 16⟩) :=
  ⟨by decide, parent_at_exact_boundaries ⟨167772160, 8⟩ (by decide)⟩

/-- Claim C7: with more than two addresses the usable range is
`(base + 1, broadcast - 1)`; otherwise (prefix 31 or 32) both bounds are
the base address; and for prefix length at most 30 the usable host count
is `numAddresses - 2`. -/
theorem host_range_rule (net : Network) (hw : WellFormed net) :
    (2 < numAddresses net →
      get_host_range net = (net.addr + 1, broadcastAddr net - 1)) ∧
    (¬ 2 < numAddresses net →
      get_host_range net = (net.addr, net.addr) ∧
      (net.prefixLen = 31 ∨ net.prefixLen = 32)) ∧
    (net.prefixLen ≤ 30 → hostsUsable net = (numAddresses net : Int) - 2) := by
  refine ⟨fun h => by rw [get_host_range, if_pos h],
          fun h => ⟨by rw [get_host_range, if_neg h], ?_⟩,
          fun h30 => ?_⟩
  · by_contra hc
    push_neg at hc
    have hgap : 2 ≤ 32 - net.prefixLen := by
      have := hw.1
      omega
    have hpow : (2 : Nat) ^ 2 ≤ 2 ^ (32 - net.prefixLen) :=
      Nat.pow_le_pow_right (by norm_num) hgap
    unfold numAddresses at h
    norm_num at hpow
    omega
  · have hgap : 2 ≤ 32 - net.prefixLen := by omega
    have hpow : (2 : Nat) ^ 2 ≤ 2 ^ (32 - net.prefixLen) :=
      Nat.pow_le_pow_right (by norm_num) hgap
    have h4 : 4 ≤ numAddresses net := by
      unfold numAddresses
      norm_num at hpow
      exact hpow
    have h4i : (4 : Int) ≤ (numAddresses net : Int) := by exact_mod_cast h4
    unfold hostsUsable
    rw [max_eq_right (by omega)]

/-- Witness for claim C7's theorem at the network 192.168.1.0/24. -/
theorem host_range_rule_witness :
    WellFormed ⟨3232235776, 24⟩ ∧
    (2 < numAddresses ⟨3232235776, 24⟩ →
      get_host_range ⟨3232235776, 24⟩ = (3232235777, broadcastAddr ⟨3232235776, 24⟩ - 1)) ∧
    ((⟨3232235776, 24⟩ : Network).prefixLen ≤ 30 →
      hostsUsable ⟨3232235776, 24⟩ = (numAddresses ⟨3232235776, 24⟩ : Int) - 2) :=
  ⟨by decide,
   fun h => (host_range_rule ⟨3232235776, 24⟩ (by decide)).1 h,
   fun h => (host_range_rule ⟨3232235776, 24⟩ (by decide)).2.2 h⟩

/-! Projections of `showRecord`, by definitional unfolding. -/

theorem showRecord_total_subnets (net : Network) (rp : Option String) :
    (showRecord net rp).total_subnets = totalSubnetsOf net (get_parent_network net) := rfl

theorem showRecord_total_pages (net : Network) (rp : Option String) :
    (showRecord net rp).total_pages = totalPagesOf net (get_parent_network net) := rfl

theorem showRecord_all_nets (net : Network) (rp : Option String) :
    (showRecord net rp).all_nets = windowEntries net (get_parent_network net) rp := rfl

theorem showRecord_current_page (net : Network) (rp : Option String) :
    (showRecord net rp).current_page = centerPageOf net (get_parent_network net) rp := rfl

theorem showRecord_current_index (net : Network) (rp : Option String) :
    (showRecord net rp).current_index = currentIndexOf net (get_parent_network net) := rfl

theorem showRecord_window_start_page (net : Network) (rp : Option String) :
    (showRecord net rp).window_start_page = startPageOf net (get_parent_network net) rp := rfl

theorem showRecord_window_end_page (net : Network) (rp : Option String) :
    (showRecord net rp).window_end_page = endPageOf net (get_parent_network net) rp := rfl

/-- Claim C3: when the parent's prefix is at least the subject's, the
result is a single-entry window holding the subject itself with
`is_current` set and both totals 1; otherwise `total_subnets` is two to
the prefix difference and `total_pages` is its ceiling division by the
fixed page size 20. -/
theorem pagination_totals (net : Network) (rp : Option String) :
    (net.prefixLen ≤ (get_parent_network net).prefixLen →
      (format_ipcalc net rp).all_nets =
        [⟨net.addr, (get_host_range net).1, (get_host_range net).2,
          broadcastAddr net, true, 0, 1⟩] ∧
      (format_ipcalc net rp).total_subnets = 1 ∧
      (format_ipcalc net rp).total_pages = 1) ∧
    ((get_parent_network net).prefixLen < net.prefixLen →
      (format_ipcalc net rp).total_subnets =
        2 ^ (net.prefixLen - (get_parent_network net).prefixLen) ∧
      (format_ipcalc net rp).total_pages =
        ((format_ipcalc net rp).total_subnets + 20 - 1) / 20) := by
  constructor
  · intro h
    have hn : ¬ (get_parent_network net).prefixLen < net.prefixLen := by omega
    rw [format_ipcalc, if_neg hn]
    exact ⟨rfl, rfl, rfl⟩
  · intro h
    rw [format_ipcalc, if_pos h, showRecord_total_subnets, showRecord_total_pages]
    have hd : 0 < net.prefixLen - (get_parent_network net).prefixLen := by omega
    have hts : totalSubnetsOf net (get_parent_network net) =
        2 ^ (net.prefixLen - (get_parent_network net).prefixLen) := by
      rw [totalSubnetsOf, if_pos hd]
    have h2 : 2 ≤ totalSubnetsOf net (get_parent_network net) := by
      rw [hts]
      calc 2 = 2 ^ 1 := rfl
        _ ≤ 2 ^ (net.prefixLen - (get_parent_network net).prefixLen) :=
          Nat.pow_le_pow_right (by norm_num) (by omega)
    refine ⟨hts, ?_⟩
    rw [totalPagesOf]
    have hIPP : ITEMS_PER_PAGE = 20 := rfl
    rw [hIPP]
    omega

/-- Witness for claim C3's theorem at the network 10.10.10.0/26. -/
theorem pagination_totals_witness :
    (get_parent_network ⟨168430080, 26⟩).prefixLen < (⟨168430080, 26⟩ : Network).prefixLen ∧
    (format_ipcalc ⟨168430080, 26⟩ none).total_subnets =
      2 ^ ((⟨168430080, 26⟩ : Network).prefixLen - (get_parent_network ⟨168430080, 26⟩).prefixLen) ∧
    (format_ipcalc ⟨168430080, 26⟩ none).total_pages =
      ((format_ipcalc ⟨168430080, 26⟩ none).total_subnets + 20 - 1) / 20 :=
  ⟨by decide, (pagination_totals ⟨168430080, 26⟩ none).2 (by decide)⟩

/-! Reductions of `centerPageOf` for the three `requested_page` shapes. -/

theorem centerPageOf_parsed (net parent : Network) (s : String) (k : Int)
    (hne : s.data ≠ []) (hp : pyInt s = some k) :
    centerPageOf net parent (some s) =
      (max 1 (min k (totalPagesOf net parent : Int))).toNat := by
  simp only [centerPageOf, if_neg hne, hp]

theorem centerPageOf_unparsed (net parent : Network) (s : String)
    (hp : pyInt s = none) :
    centerPageOf net parent (some s) =
      currentIndexOf net parent / ITEMS_PER_PAGE + 1 := by
  by_cases hne : s.data = []
  · simp only [centerPageOf, if_pos hne]
  · simp only [centerPageOf, if_neg hne, hp]

theorem centerPageOf_none (net parent : Network) :
    centerPageOf net parent none = currentIndexOf net parent / ITEMS_PER_PAGE + 1 := rfl

/-- Claim C5: with a strictly wider parent, a `requested_page` that
parses as an integer (any integer: zero, negative or past the last page)
yields a centre page clamped into `[1, total_pages]`; an absent or
unparseable value falls back to the page holding the subject's own
index; no value makes the (total) function fail. -/
theorem requested_page_handling (net : Network) (rp : Option String)
    (hlt : (get_parent_network net).prefixLen < net.prefixLen) :
    (∀ s k, rp = some s → pyInt s = some k →
      ((format_ipcalc net rp).current_page : Int) =
        max 1 (min k ((format_ipcalc net rp).total_pages : Int))) ∧
    (rp = none →
      (format_ipcalc net rp).current_page =
        (format_ipcalc net rp).current_index / 20 + 1) ∧
    (∀ s, rp = some s → pyInt s = none →
      (format_ipcalc net rp).current_page =
        (format_ipcalc net rp).current_index / 20 + 1) := by
  rw [format_ipcalc, if_pos hlt]
  refine ⟨?_, ?_, ?_⟩
  · rintro s k rfl hpy
    have hsne : s.data ≠ [] := by
      intro hnil
      rw [pyInt, hnil] at hpy
      simp [pyStrip, pyIntChars, pyIntDigitsOk] at hpy
    rw [showRecord_current_page, showRecord_total_pages,
      centerPageOf_parsed _ _ s k hsne hpy]
    rw [Int.toNat_of_nonneg (le_trans (by norm_num) (le_max_left 1 _))]
  · rintro rfl
    rw [showRecord_current_page, showRecord_current_index, centerPageOf_none]
    rfl
  · rintro s rfl hpy
    rw [showRecord_current_page, showRecord_current_index,
      centerPageOf_unparsed _ _ s hpy]
    rfl

/-- Witness for claim C5's theorem at 10.10.10.0/26 with page text 3. -/
theorem requested_page_handling_witness :
    (get_parent_network ⟨168430080, 26⟩).prefixLen < (⟨168430080, 26⟩ : Network).prefixLen ∧
    pyInt "3" = some 3 ∧
    ((format_ipcalc ⟨168430080, 26⟩ (some "3")).current_page : Int) =
      max 1 (min 3 ((format_ipcalc ⟨168430080, 26⟩ (some "3")).total_pages : Int)) :=
  ⟨by decide, by decide,
   (requested_page_handling ⟨168430080, 26⟩ (some "3") (by decide)).1 "3" 3 rfl (by decide)⟩

/-- In the sibling-enumeration case the prefix is above 8, since an /8
or wider subject gets a parent of prefix exactly 8. -/
theorem show_case_above8 (net : Network)
    (hlt : (get_parent_network net).prefixLen < net.prefixLen) :
    8 < net.prefixLen := by
  by_contra hc
  rw [get_parent_network_low net hc] at hlt
  simp only at hlt
  exact hc hlt

/-- In the sibling-enumeration case the parent's base address is a
multiple of the subnet size of the subject. -/
theorem parent_addr_dvd (net : Network)
    (hlt : (get_parent_network net).prefixLen < net.prefixLen) :
    subnetSizeOf net ∣ (get_parent_network net).addr := by
  obtain ⟨heq, hblt, _⟩ := get_parent_network_eq net (show_case_above8 net hlt)
  rw [heq]
  exact dvd_trans (pow_dvd_pow 2 (by omega)) (dvd_netBase _ _)

/-- Window entry `k` of the generated list is the entry for sibling
index `start_index + k`. -/
theorem windowEntries_getD (net parent : Network) (rp : Option String) (k : Nat)
    (hk : k < endIndexOf net parent rp - startIndexOf net parent rp) :
    (windowEntries net parent rp).getD k entryDefault =
      entryAt net parent (startIndexOf net parent rp + k) := by
  rw [windowEntries, List.getD_eq_getElem?_getD, List.getElem?_map,
    List.getElem?_range' _ _ hk, Option.map_some', Option.getD_some, Nat.one_mul]

/-- The fields of a window entry, once the parent base is aligned to the
subnet size (so that clearing host bits leaves the address unchanged). -/
theorem entryAt_fields (net parent : Network) (idx : Nat)
    (hal : subnetSizeOf net ∣ parent.addr) :
    (entryAt net parent idx).network = parent.addr + idx * subnetSizeOf net ∧
    (entryAt net parent idx).broadcast =
      broadcastAddr ⟨(entryAt net parent idx).network, net.prefixLen⟩ ∧
    ((entryAt net parent idx).rangeLo, (entryAt net parent idx).rangeHi) =
      get_host_range ⟨(entryAt net parent idx).network, net.prefixLen⟩ ∧
    (entryAt net parent idx).index = idx ∧
    (entryAt net parent idx).page = idx / 20 + 1 ∧
    ((entryAt net parent idx).is_current = true ↔
      (⟨(entryAt net parent idx).network, net.prefixLen⟩ : Network) = net) := by
  have hnb : netBase (parent.addr + idx * subnetSizeOf net) net.prefixLen =
      parent.addr + idx * subnetSizeOf net :=
    netBase_of_dvd (Nat.dvd_add hal ⟨idx, Nat.mul_comm _ _⟩)
  have hIPP : ITEMS_PER_PAGE = 20 := rfl
  simp [entryAt, hnb, decide_eq_true_eq, hIPP]

/-- Claim C4: with a strictly wider parent, the window pages are the
centre page widened by ten each way and clamped; the entries are exactly
the sibling indices from `(window_start_page - 1) * 20` up to
`min(total_subnets, window_end_page * 20)`; entry `i` sits at base
`parent.address + i * subnet_size` with that network's broadcast and
host range, carries index `i` and page `i / 20 + 1`, and is flagged
current exactly when it equals the subject in base and prefix. -/
theorem window_entries_exact (net : Network) (rp : Option String)
    (hlt : (get_parent_network net).prefixLen < net.prefixLen) :
    (format_ipcalc net rp).window_start_page =
      max 1 ((format_ipcalc net rp).current_page - 10) ∧
    (format_ipcalc net rp).window_end_page =
      min (format_ipcalc net rp).total_pages ((format_ipcalc net rp).current_page + 10) ∧
    (format_ipcalc net rp).all_nets.length =
      min (format_ipcalc net rp).total_subnets
        ((format_ipcalc net rp).window_end_page * 20) -
        ((format_ipcalc net rp).window_start_page - 1) * 20 ∧
    (∀ k, k < (format_ipcalc net rp).all_nets.length →
      ((format_ipcalc net rp).all_nets.getD k entryDefault).network =
        (get_parent_network net).addr +
          (((format_ipcalc net rp).window_start_page - 1) * 20 + k) * subnetSizeOf net ∧
      ((format_ipcalc net rp).all_nets.getD k entryDefault).broadcast =
        broadcastAddr ⟨((format_ipcalc net rp).all_nets.getD k entryDefault).network,
          net.prefixLen⟩ ∧
      (((format_ipcalc net rp).all_nets.getD k entryDefault).rangeLo,
        ((format_ipcalc net rp).all_nets.getD k entryDefault).rangeHi) =
        get_host_range ⟨((format_ipcalc net rp).all_nets.getD k entryDefault).network,
          net.prefixLen⟩ ∧
      ((format_ipcalc net rp).all_nets.getD k entryDefault).index =
        (((format_ipcalc net rp).window_start_page - 1) * 20 + k) ∧
      ((format_ipcalc net rp).all_nets.getD k entryDefault).page =
        ((((format_ipcalc net rp).window_start_page - 1) * 20 + k) / 20 + 1) ∧
      (((format_ipcalc net rp).all_nets.getD k entryDefault).is_current = true ↔
        (⟨((format_ipcalc net rp).all_nets.getD k entryDefault).network,
          net.prefixLen⟩ : Network) = net)) := by
  have hdvd := parent_addr_dvd net hlt
  rw [format_ipcalc, if_pos hlt]
  refine ⟨rfl, rfl, ?_, ?_⟩
  · rw [showRecord_all_nets, windowEntries, List.length_map, List.length_range']
    rfl
  · intro k hk
    rw [showRecord_all_nets] at hk ⊢
    rw [showRecord_window_start_page]
    have hk' : k < endIndexOf net (get_parent_network net) rp -
        startIndexOf net (get_parent_network net) rp := by
      rw [windowEntries, List.length_map, List.length_range'] at hk
      exact hk
    rw [windowEntries_getD net (get_parent_network net) rp k hk']
    have hidx : startIndexOf net (get_parent_network net) rp + k =
        (startPageOf net (get_parent_network net) rp - 1) * 20 + k := rfl
    rw [← hidx]
    exact entryAt_fields net (get_parent_network net) _ hdvd

/-- Witness for claim C4's theorem at 10.10.10.0/26 with no page
request: the theorem applied to a concrete, checked input. -/
theorem window_entries_exact_witness :
    (get_parent_network ⟨168430080, 26⟩).prefixLen < (⟨168430080, 26⟩ : Network).prefixLen ∧
    (format_ipcalc ⟨168430080, 26⟩ none).all_nets.length =
      min (format_ipcalc ⟨168430080, 26⟩ none).total_subnets
        ((format_ipcalc ⟨168430080, 26⟩ none).window_end_page * 20) -
        ((format_ipcalc ⟨168430080, 26⟩ none).window_start_page - 1) * 20 ∧
    ((format_ipcalc ⟨168430080, 26⟩ none).all_nets.getD 0 entryDefault).network =
      (get_parent_network ⟨168430080, 26⟩).addr +
        (((format_ipcalc ⟨168430080, 26⟩ none).window_start_page - 1) * 20 + 0) *
          subnetSizeOf ⟨168430080, 26⟩ :=
  ⟨by decide,
   (window_entries_exact ⟨168430080, 26⟩ none (by decide)).2.2.1,
   ((window_entries_exact ⟨168430080, 26⟩ none (by decide)).2.2.2 0 (by decide)).1⟩

/-- Claim C8: parsing `192.168.1.10/24` and formatting yields network
192.168.1.0, broadcast 192.168.1.255, 254 usable hosts, the stated host
range, class C, type Private and the reversed-byte reverse-DNS name. -/
theorem example_cidr_192_168_1_10 :
    parse_input ("192.168.1.10/24") = some ⟨3232235776, 24⟩ ∧
    (format_ipcalc ⟨3232235776, 24⟩ none).network = "192.168.1.0" ∧
    (format_ipcalc ⟨3232235776, 24⟩ none).broadcast = "192.168.1.255" ∧
    (format_ipcalc ⟨3232235776, 24⟩ none).hosts_usable = "254" ∧
    (format_ipcalc ⟨3232235776, 24⟩ none).host_min = "192.168.1.1" ∧
    (format_ipcalc ⟨3232235776, 24⟩ none).host_max = "192.168.1.254" ∧
    (format_ipcalc ⟨3232235776, 24⟩ none).ip_class = "C" ∧
    (format_ipcalc ⟨3232235776, 24⟩ none).ip_type = "Private" ∧
    (format_ipcalc ⟨3232235776, 24⟩ none).in_addr = "0.1.168.192.in-addr.arpa" := by
  decide

theorem singleRecord_all_nets (net : Network) :
    (singleRecord net).all_nets =
      [⟨net.addr, (get_host_range net).1, (get_host_range net).2,
        broadcastAddr net, true, 0, 1⟩] := rfl

/-- Claim C9 as stated is false: for the subject 0.0.0.0/0 the resolved
parent is 0.0.0.0/8 and the single returned entry (the subject itself)
has broadcast 255.255.255.255, far beyond the parent's broadcast. -/
theorem window_escapes_parent_for_default_route :
    (format_ipcalc ⟨0, 0⟩ none).all_nets =
      [⟨0, 1, 4294967294, 4294967295, true, 0, 1⟩] ∧
    get_parent_network ⟨0, 0⟩ = ⟨0, 8⟩ ∧
    broadcastAddr (get_parent_network ⟨0, 0⟩) < 4294967295 := by
  decide

/-- Claim C9, amended: the window never holds more than 420 entries and
every entry spans exactly one subject-sized block; the containment in
the resolved parent holds for subjects of prefix length at least 8 (a
wider subject is its own single entry and escapes its narrower /8
parent). -/
theorem window_invariants (net : Network) (rp : Option String)
    (hw : WellFormed net) :
    (format_ipcalc net rp).all_nets.length ≤ 420 ∧
    (∀ e ∈ (format_ipcalc net rp).all_nets,
      e.broadcast = e.network + subnetSizeOf net - 1) ∧
    (8 ≤ net.prefixLen →
      ∀ e ∈ (format_ipcalc net rp).all_nets,
        (get_parent_network net).addr ≤ e.network ∧
        e.broadcast ≤ broadcastAddr (get_parent_network net)) := by
  by_cases hshow : (get_parent_network net).prefixLen < net.prefixLen
  · rw [format_ipcalc, if_pos hshow, showRecord_all_nets]
    have h8 := show_case_above8 net hshow
    have hdvd := parent_addr_dvd net hshow
    refine ⟨?_, ?_, ?_⟩
    · rw [windowEntries, List.length_map, List.length_range']
      have h1 : startIndexOf net (get_parent_network net) rp =
          (max 1 (centerPageOf net (get_parent_network net) rp - 10) - 1) * 20 := rfl
      have h2 : endIndexOf net (get_parent_network net) rp =
          min (totalSubnetsOf net (get_parent_network net))
            (min (totalPagesOf net (get_parent_network net))
              (centerPageOf net (get_parent_network net) rp + 10) * 20) := rfl
      omega
    · intro e he
      obtain ⟨idx, hmem, rfl⟩ := List.mem_map.mp he
      rfl
    · intro _ e he
      obtain ⟨idx, hmem, rfl⟩ := List.mem_map.mp he
      rw [List.mem_range'_1] at hmem
      have hidxts : idx < totalSubnetsOf net (get_parent_network net) := by
        have h3 : idx < endIndexOf net (get_parent_network net) rp := by omega
        exact lt_of_lt_of_le h3 (min_le_left _ _)
      obtain ⟨hn, hb, _, _, _, _⟩ := entryAt_fields net (get_parent_network net) idx hdvd
      constructor
      · rw [hn]
        exact Nat.le_add_right _ _
      · have hbr : (entryAt net (get_parent_network net) idx).broadcast =
            (get_parent_network net).addr + idx * subnetSizeOf net + subnetSizeOf net - 1 := by
          rw [hb, hn]
          rfl
        have hPb : broadcastAddr (get_parent_network net) =
            (get_parent_network net).addr +
              2 ^ (32 - (get_parent_network net).prefixLen) - 1 := rfl
        have hts : totalSubnetsOf net (get_parent_network net) =
            2 ^ (net.prefixLen - (get_parent_network net).prefixLen) := by
          rw [totalSubnetsOf, if_pos (by omega)]
        have hpow : totalSubnetsOf net (get_parent_network net) * subnetSizeOf net =
            2 ^ (32 - (get_parent_network net).prefixLen) := by
          rw [hts, subnetSizeOf, ← Nat.pow_add]
          congr 1
          have := hw.1
          omega
        have hmul2 : idx * subnetSizeOf net + subnetSizeOf net ≤
            2 ^ (32 - (get_parent_network net).prefixLen) := by
          rw [← hpow]
          calc idx * subnetSizeOf net + subnetSizeOf net
              = (idx + 1) * subnetSizeOf net := by ring
            _ ≤ _ := Nat.mul_le_mul_right _ (by omega)
        have hS : 0 < subnetSizeOf net := Nat.pos_pow_of_pos _ (by norm_num)
        rw [hbr, hPb]
        omega
  · rw [format_ipcalc, if_neg hshow, singleRecord_all_nets]
    refine ⟨by norm_num, ?_, ?_⟩
    · intro e he
      rcases List.mem_singleton.mp he with rfl
      rfl
    · intro h8 e he
      have hp8 : net.prefixLen = 8 := by
        by_contra hne
        obtain ⟨heq, hblt, _⟩ := get_parent_network_eq net (by omega)
        exact hshow (by rw [heq]; simpa using hblt)
      have hpar := parent_of_exact8 net hw hp8
      rcases List.mem_singleton.mp he with rfl
      rw [hpar]
      exact ⟨le_refl _, le_refl _⟩

/-- Witness for claim C9's amended theorem at 192.168.1.0/24. -/
theorem window_invariants_witness :
    WellFormed ⟨3232235776, 24⟩ ∧
    (format_ipcalc ⟨3232235776, 24⟩ none).all_nets.length ≤ 420 ∧
    (8 ≤ (⟨3232235776, 24⟩ : Network).prefixLen →
      ∀ e ∈ (format_ipcalc ⟨3232235776, 24⟩ none).all_nets,
        (get_parent_network ⟨3232235776, 24⟩).addr ≤ e.network ∧
        e.broadcast ≤ broadcastAddr (get_parent_network ⟨3232235776, 24⟩)) :=
  ⟨by decide, (window_invariants ⟨3232235776, 24⟩ none (by decide)).1,
   (window_invariants ⟨3232235776, 24⟩ none (by decide)).2.2⟩

/-- Claim C6: when the two-token subnet-mask attempt fails, the second
token is read as a wildcard mask, complemented against 0xFFFFFFFF and
the parse retried with the resulting mask; and both stated example
inputs parse to 10.10.10.0/30. -/
theorem wildcard_mask_fallback :
    (∀ ip mask : List Char,
      pyStrip (ip ++ ' ' :: mask) = ip ++ ' ' :: mask →
      (ip ++ ' ' :: mask).any (fun c => c = '/') = false →
      splitWs (ip ++ ' ' :: mask) = [ip, mask] →
      pyStrip ip = ip →
      pyStrip mask = mask →
      netFromCidrChars (ip ++ '/' :: mask) = none →
      parseInputChars (ip ++ ' ' :: mask) =
        (match parseIPv4Chars mask with
         | some w => netFromCidrChars (ip ++ '/' :: ipChars (4294967295 - w))
         | none => none)) ∧
    parse_input ("10.10.10.1 0.0.0.3") = some ⟨168430080, 30⟩ ∧
    parse_input ("10.10.10.1 255.255.255.252") = some ⟨168430080, 30⟩ := by
  refine ⟨?_, by decide, by decide⟩
  intro ip mask hstrip hslash hsplit hip hmask hfail
  have hne : ¬ (ip ++ ' ' :: mask = []) := by
    intro h
    rcases ip with _ | ⟨c, cs⟩ <;> simp at h
  simp only [parseInputChars, if_neg hne, hstrip, hslash, hsplit, hip, hmask, hfail,
    Bool.false_eq_true, if_false]

/-- Witness for claim C6's fallback statement at the two-token input
`10.0.0.1 0.255.0.0`, whose mask token defeats the first attempt. -/
theorem wildcard_mask_fallback_witness :
    netFromCidrChars (("10.0.0.1").data ++ '/' :: ("0.255.0.0").data) = none ∧
    parseInputChars (("10.0.0.1").data ++ ' ' :: ("0.255.0.0").data) =
      (match parseIPv4Chars (("0.255.0.0").data) with
       | some w => netFromCidrChars (("10.0.0.1").data ++ '/' :: ipChars (4294967295 - w))
       | none => none) :=
  ⟨by decide,
   wildcard_mask_fallback.1 (("10.0.0.1").data) (("0.255.0.0").data)
     (by decide) (by decide) (by decide) (by decide) (by decide) (by decide)⟩

/-- Claim C10: the mask position also accepts a plain prefix-length
integer (already on the first, pre-wildcard attempt) and, after a slash,
a hostmask; both cases delegate to the `IPv4Network` text constructor. -/
theorem parse_extra_mask_forms :
    netFromCidrChars (("10.0.0.1/24").data) = some ⟨167772160, 24⟩ ∧
    parse_input ("10.0.0.1 24") = some ⟨167772160, 24⟩ ∧
    parse_input ("192.168.1.1/0.0.0.255") = some ⟨3232235776, 24⟩ := by
  decide

end IpCalc
